import Mathlib

/-!
Shallow embedding of the OpenClaw RAW preview pipeline
(`src/raw_preview_generator.py`) and the unified search front end
(`src/photo-search-all.py`).

Python floats are modelled as rationals (`ℚ`), machine integers as `ℤ`/`ℕ`,
Python `None` as `Option.none`, and fallible external calls (rawpy, PIL,
the filesystem, sqlite) as `Except String` oracles supplied as arguments.
-/

/-- Python `int(x)` applied to a numeric value: truncation toward zero. -/
def pyTrunc (q : ℚ) : ℤ :=
  if 0 ≤ q then ⌊q⌋ else ⌈q⌉

/-- Round-half-to-even, the rounding used by Python's `round` and by the
decimal rounding step of `%.Nf` string formatting. -/
def roundHalfEven (q : ℚ) : ℤ :=
  let f := ⌊q⌋
  let r := q - (f : ℚ)
  if r < 1/2 then f
  else if 1/2 < r then f + 1
  else if f % 2 = 0 then f else f + 1

/-- Python `f"{q:.1f}"` for a nonnegative value: the value rounded
(half-to-even) to one decimal place, rendered as `<int>.<digit>`. -/
def oneDecimalStr (q : ℚ) : String :=
  let n : ℤ := roundHalfEven (q * 10)
  let a : ℕ := n.natAbs
  (if n < 0 then "-" else "") ++ toString (a / 10) ++ "." ++ toString (a % 10)

/-- Python `f"{q:.0f}"`: the value rounded half-to-even to an integer. -/
def zeroDecimalStr (q : ℚ) : String :=
  toString (roundHalfEven q)

/-- The shutter-speed formatting of `extract_exif_from_raw`
(`raw_preview_generator.py` lines 150-155):
`f"{ss:.1f}s"` when `ss >= 1`, else `f"1/{int(1/ss)}"`. -/
def format_shutter_speed (ss : ℚ) : String :=
  if 1 ≤ ss then oneDecimalStr ss ++ "s"
  else "1/" ++ toString (pyTrunc (1 / ss))

/-! ## Path-based client/date inference (`parse_client_info`, lines 59-76)

The two regular expressions
`(\d{4}-\d{2}-\d{2})\s+([^\\\/]+)` and `(\d{4}-\d{2}-\d{2})[\\/]`
searched with `re.search` (leftmost starting position wins, quantifiers
greedy with backtracking) are embedded directly as matchers specialized to
these two patterns, over ASCII character lists. -/

/-- Python regex `\d`, for the ASCII paths this tool handles. -/
def isPyDigit (c : Char) : Bool := '0' ≤ c && c ≤ '9'

/-- Python regex `\s` (also the class stripped by `str.strip()`). -/
def isPySpace (c : Char) : Bool :=
  c = ' ' || c = '\t' || c = '\n' || c = '\r' || c = '\x0b' || c = '\x0c'

/-- The character class `[\\/]` of the two patterns. -/
def isPathSep (c : Char) : Bool := c = '\\' || c = '/'

/-- Match `\d{4}-\d{2}-\d{2}` at the head of the list, returning the ten
matched characters and the remainder. -/
def dateAt : List Char → Option (List Char × List Char)
  | a :: b :: c :: d :: '-' :: e :: f :: '-' :: g :: h :: rest =>
    if isPyDigit a && isPyDigit b && isPyDigit c && isPyDigit d
        && isPyDigit e && isPyDigit f && isPyDigit g && isPyDigit h then
      some ([a, b, c, d, '-', e, f, '-', g, h], rest)
    else none
  | _ => none

/-- Match pattern 1, `(\d{4}-\d{2}-\d{2})\s+([^\\\/]+)`, anchored at the head
of the list: the date token, then a greedy run of whitespace, then a greedy
nonempty run of non-separator characters. When the greedy whitespace run
swallows everything up to a separator (or the end), the regex engine
backtracks one whitespace character into group 2, which needs at least two
whitespace characters to succeed. Returns (group 1, group 2). -/
def pat1At (cs : List Char) : Option (List Char × List Char) :=
  match dateAt cs with
  | none => none
  | some (d, rest) =>
    match rest with
    | [] => none
    | c :: _ =>
      if isPySpace c then
        let ws := rest.takeWhile isPySpace
        let after := rest.dropWhile isPySpace
        let grp := after.takeWhile (fun x => !isPathSep x)
        if grp.isEmpty then
          match ws.getLast? with
          | some w => if 2 ≤ ws.length then some (d, [w]) else none
          | none => none
        else some (d, grp)
      else none

/-- `re.search` for pattern 1: try every start position left to right. -/
def searchPat1 : List Char → Option (List Char × List Char)
  | [] => none
  | c :: cs =>
    match pat1At (c :: cs) with
    | some r => some r
    | none => searchPat1 cs

/-- Match pattern 2, `(\d{4}-\d{2}-\d{2})[\\/]`, anchored at the head. -/
def pat2At (cs : List Char) : Option (List Char) :=
  match dateAt cs with
  | none => none
  | some (d, rest) =>
    match rest with
    | c :: _ => if isPathSep c then some d else none
    | [] => none

/-- `re.search` for pattern 2. -/
def searchPat2 : List Char → Option (List Char)
  | [] => none
  | c :: cs =>
    match pat2At (c :: cs) with
    | some r => some r
    | none => searchPat2 cs

/-- Python `str.strip()`: drop whitespace at both ends. -/
def pyStrip (cs : List Char) : List Char :=
  ((cs.dropWhile isPySpace).reverse.dropWhile isPySpace).reverse

/-- `parse_client_info` (`raw_preview_generator.py` lines 59-76): pattern 1
first; on a match return (trimmed group 2, group 1); else pattern 2 gives
(None, group 1); else (None, None). -/
def parse_client_info (filepath : String) : Option String × Option String :=
  match searchPat1 filepath.data with
  | some (d, g) => (some (String.mk (pyStrip g)), some (String.mk d))
  | none =>
    match searchPat2 filepath.data with
    | some d => (none, some (String.mk d))
    | none => (none, none)

/-! ## Preview path derivation (`get_preview_path`, lines 79-84)

`pathlib` pure paths (POSIX flavor) are modelled explicitly: a path is an
absolute flag plus a list of components, where parsing collapses spurious
slashes and single-dot components. -/

/-- Split a character list on `'/'`, keeping empty pieces. -/
def splitSlash : List Char → List (List Char)
  | [] => [[]]
  | c :: rest =>
    if c = '/' then [] :: splitSlash rest
    else
      match splitSlash rest with
      | [] => [[c]]
      | p :: ps => (c :: p) :: ps

/-- A `pathlib` pure path: absolute flag plus components. -/
structure PurePath where
  absolute : Bool
  comps : List (List Char)
deriving DecidableEq

/-- Parse a string into a pure path: absolute iff it starts with `'/'`;
components are the slash-separated pieces with empty pieces and single
dots dropped, as `pathlib` does. -/
def parsePath (s : String) : PurePath :=
  { absolute := s.data.head? = some '/'
    comps := (splitSlash s.data).filter (fun p => !p.isEmpty && p != ['.']) }

/-- `pathlib` `name`: the last component, or empty. -/
def PurePath.name (p : PurePath) : List Char := p.comps.getLast?.getD []

/-- Index of the last `'.'` in a name, if any. -/
def lastDotIdx (cs : List Char) : Option ℕ :=
  match cs.reverse.findIdx? (fun c => c = '.') with
  | none => none
  | some j => some (cs.length - 1 - j)

/-- `pathlib` `stem`: the name with its last suffix removed; a suffix exists
only when the last dot is neither the first nor the last character. -/
def PurePath.stem (p : PurePath) : List Char :=
  match lastDotIdx p.name with
  | some i => if 0 < i ∧ i < p.name.length - 1 then p.name.take i else p.name
  | none => p.name

/-- `pathlib` `parent`: drop the last component. -/
def PurePath.parent (p : PurePath) : PurePath := ⟨p.absolute, p.comps.dropLast⟩

/-- The `/` operator of `pathlib` for a single plain name: append it. -/
def PurePath.child (p : PurePath) (n : List Char) : PurePath :=
  ⟨p.absolute, p.comps ++ [n]⟩

/-- Join components with `'/'`. -/
def joinSlash : List (List Char) → List Char
  | [] => []
  | [c] => c
  | c :: c2 :: cs => c ++ '/' :: joinSlash (c2 :: cs)

/-- The glue after the head block of a join: nothing when no blocks
follow, else a slash followed by the join of the rest. -/
def joinRest (l : List (List Char)) : List Char :=
  match l with
  | [] => []
  | _ :: _ => '/' :: joinSlash l

/-- `str()` of a pure path. -/
def pathStr (p : PurePath) : List Char :=
  if p.comps.isEmpty then (if p.absolute then ['/'] else ['.'])
  else (if p.absolute then ['/'] else []) ++ joinSlash p.comps

/-- `get_preview_path` (`raw_preview_generator.py` lines 79-84):
`Path(raw_path).parent / (Path(raw_path).stem + '_preview.jpg')` rendered
back to a string. (The source's `preview_dir` parameter is unused there.) -/
def get_preview_path (raw_path : String) : String :=
  let raw_file := parsePath raw_path
  let preview_file := raw_file.parent.child (raw_file.stem ++ "_preview.jpg".data)
  String.mk (pathStr preview_file)

/-! ## RAW to preview conversion (`convert_raw_to_preview`, lines 87-116)

The external calls (rawpy decode+postprocess, PIL image construction,
thumbnail resize, directory creation, JPEG save, file-size stat) are
supplied as `Except String` oracles; the Python `try/except Exception`
around the whole body becomes a match on the chained result. -/

/-- The keyword arguments of the `raw.postprocess(...)` call at lines 94-99. -/
structure PostprocessArgs where
  use_camera_wb : Bool
  half_size : Bool
  no_auto_bright : Bool
  output_bps : ℕ
deriving DecidableEq

/-- The argument record the code passes: `use_camera_wb=True, half_size=True,
no_auto_bright=False, output_bps=8`. -/
def convertPostprocessArgs : PostprocessArgs :=
  { use_camera_wb := true, half_size := true, no_auto_bright := false, output_bps := 8 }

/-- Oracles for the external effects of `convert_raw_to_preview`, for fixed
raw and preview paths. `RGB` is the pixel-buffer type, `Img` the PIL image
type. -/
structure ConvertEnv (RGB Img : Type) where
  imread_postprocess : PostprocessArgs → Except String RGB
  fromarray : RGB → Except String Img
  thumbnail : Img → ℕ → Except String Img
  makedirs : Except String Unit
  save : Img → ℕ → Except String Unit
  getsize : Except String ℕ

/-- The body of `convert_raw_to_preview` as the chain of its effectful
steps, before the surrounding `try/except`. -/
def convertPipeline {RGB Img : Type} (env : ConvertEnv RGB Img)
    (max_size quality : ℕ) : Except String ℕ := do
  let rgb ← env.imread_postprocess convertPostprocessArgs
  let img ← env.fromarray rgb
  let img2 ← env.thumbnail img max_size
  let _ ← env.makedirs
  let _ ← env.save img2 quality
  env.getsize

/-- The Python return value: `(True, byte size)` or `(False, str(e))`. -/
inductive ConvertResult where
  | success (size : ℕ)
  | failure (reason : String)
deriving DecidableEq

/-- `convert_raw_to_preview` (`raw_preview_generator.py` lines 87-116): run
the pipeline inside `try`, catching every exception into a `(False, reason)`
outcome. -/
def convert_raw_to_preview {RGB Img : Type} (env : ConvertEnv RGB Img)
    (max_size quality : ℕ) : ConvertResult :=
  match convertPipeline env max_size quality with
  | .ok n => .success n
  | .error e => .failure e

/-! ## EXIF extraction (`extract_exif_from_raw`, lines 119-168)

`rawpy.imread` plus the optional `raw.metadata` attribute bundle are
supplied as an oracle: `.error` models an exception from `imread` (caught
by the outer `try`, which then returns the initial all-`None` dict),
`.ok none` models `hasattr(raw, 'metadata')` being false, and each bundle
field is `Option`-valued, modelling its `getattr`/`hasattr` probe. -/

/-- The optional rawpy metadata attributes probed by the code. -/
structure LibRawMeta where
  make : Option String
  model : Option String
  iso_speed : Option ℤ
  aperture : Option ℚ
  shutter : Option ℚ
  focal_length : Option ℚ
  timestamp : Option ℤ
deriving DecidableEq

/-- The `metadata` dict built by `extract_exif_from_raw`. The timestamp is
kept as the raw integer passed to `datetime.fromtimestamp`. -/
structure ExifMetadata where
  camera_make : Option String
  camera_model : Option String
  lens_model : Option String
  iso : Option ℤ
  aperture : Option String
  shutter_speed : Option String
  focal_length : Option String
  datetime : Option ℤ
  gps_latitude : Option ℚ
  gps_longitude : Option ℚ
deriving DecidableEq

/-- The dict initializer at lines 121-132: every field `None`. -/
def initMetadata : ExifMetadata :=
  { camera_make := none, camera_model := none, lens_model := none,
    iso := none, aperture := none, shutter_speed := none,
    focal_length := none, datetime := none,
    gps_latitude := none, gps_longitude := none }

/-- `extract_exif_from_raw` (`raw_preview_generator.py` lines 119-168). The
fields `lens_model`, `gps_latitude`, `gps_longitude` appear only in the
initializer; no branch assigns them. Aperture is formatted `f"f/{a:.1f}"`,
shutter speed via `format_shutter_speed`, focal length `f"{fl:.0f}mm"`. -/
def extract_exif_from_raw (raw : Except String (Option LibRawMeta)) : ExifMetadata :=
  match raw with
  | .error _ => initMetadata
  | .ok none => initMetadata
  | .ok (some md) =>
    { initMetadata with
      camera_make := md.make
      camera_model := md.model
      iso := md.iso_speed
      aperture := md.aperture.map (fun a => "f/" ++ oneDecimalStr a)
      shutter_speed := md.shutter.map format_shutter_speed
      focal_length := md.focal_length.map (fun fl => zeroDecimalStr fl ++ "mm")
      datetime := md.timestamp }

/-! ## Catalog rows and upsert (`scan_raw_files`, lines 201-222 and 260-274)

The `raw_photos` table is a list of rows; `filepath` is declared
`UNIQUE NOT NULL`, and `INSERT OR REPLACE` deletes any row conflicting on
`filepath` before inserting the new one. The `id` autoincrement column is
not modelled (a replaced row gets a fresh id; no claim mentions it). -/

/-- One row of the `raw_photos` table (schema at lines 201-222). -/
structure RawPhotoRecord where
  filepath : String
  preview_path : Option String
  client_name : Option String
  date : Option String
  camera_make : Option String
  camera_model : Option String
  lens_model : Option String
  iso : Option ℤ
  aperture : Option String
  shutter_speed : Option String
  focal_length : Option String
  datetime : Option ℤ
  gps_latitude : Option ℚ
  gps_longitude : Option ℚ
  size_mb : Option ℚ
  preview_size_kb : Option ℚ
  indexed_at : Option String
deriving DecidableEq

/-- `INSERT OR REPLACE INTO raw_photos` (lines 260-274): delete every row
with the same `filepath`, then insert the new row whole. -/
def insert_or_replace (table : List RawPhotoRecord) (rec : RawPhotoRecord) :
    List RawPhotoRecord :=
  table.filter (fun r => !(r.filepath == rec.filepath)) ++ [rec]

/-- The row tuple bound at lines 268-274 of the upsert statement. -/
def mkScanRecord (raw_path preview_path : String)
    (client_name date : Option String) (metadata : ExifMetadata)
    (raw_size_mb preview_size_kb : ℚ) (indexed_at : String) : RawPhotoRecord :=
  { filepath := raw_path, preview_path := some preview_path,
    client_name := client_name, date := date,
    camera_make := metadata.camera_make, camera_model := metadata.camera_model,
    lens_model := metadata.lens_model, iso := metadata.iso,
    aperture := metadata.aperture, shutter_speed := metadata.shutter_speed,
    focal_length := metadata.focal_length, datetime := metadata.datetime,
    gps_latitude := metadata.gps_latitude, gps_longitude := metadata.gps_longitude,
    size_mb := some raw_size_mb, preview_size_kb := some preview_size_kb,
    indexed_at := some indexed_at }

/-! ## Lock retry (`db_execute_with_retry`, lines 44-56)

The statement execution is an oracle `locked : ℕ → Bool`: attempt `i`
(0-based, as the Python loop index) raises a "database is locked"
`OperationalError` iff `locked i = true`. Only locked errors are modelled,
which is the condition the claim quantifies over. The trace records the
number of `cursor.execute` calls, the sleep durations in order, and the
final outcome. -/

/-- The observable outcome of `db_execute_with_retry`: `success` models
`return True`, `raised` the re-raise, and `returnedFalse` the (unreachable
under locked-only errors) fall-through `return False`. -/
inductive RetryOutcome where
  | success
  | raised
  | returnedFalse
deriving DecidableEq

/-- Trace of one call: attempts made, sleeps performed, outcome. -/
structure RetryTrace where
  attemptsMade : ℕ
  sleeps : List ℚ
  outcome : RetryOutcome
deriving DecidableEq

/-- The `for attempt in range(max_retries)` loop, as a recursion on the
remaining iterations (`fuel`); `attempt` is the current loop index. On a
locked error with `attempt < max_retries - 1` it sleeps
`delay * (attempt + 1)` and continues; otherwise it re-raises. -/
def retryLoop (locked : ℕ → Bool) (max_retries : ℕ) (delay : ℚ) :
    ℕ → ℕ → RetryTrace
  | _, 0 => ⟨0, [], .returnedFalse⟩
  | attempt, fuel + 1 =>
    if locked attempt then
      if attempt < max_retries - 1 then
        let t := retryLoop locked max_retries delay (attempt + 1) fuel
        ⟨t.attemptsMade + 1, delay * (attempt + 1) :: t.sleeps, t.outcome⟩
      else ⟨1, [], .raised⟩
    else ⟨1, [], .success⟩

/-- `db_execute_with_retry` (`raw_preview_generator.py` lines 44-56): run
the loop from attempt 0. The source's defaults are `max_retries=5`,
`delay=0.5`. -/
def db_execute_with_retry (locked : ℕ → Bool) (max_retries : ℕ) (delay : ℚ) :
    RetryTrace :=
  retryLoop locked max_retries delay 0 max_retries

/-! ## The per-file scan loop (`scan_raw_files`, lines 226-292)

Each candidate file carries the outcomes of its external probes: preview
existence, the conversion result, the EXIF oracle, its size, and the
outcome of the catalog write (after retries). The loop body mirrors the
source exactly: skip check first, then conversion, then — only on
success — metadata extraction and the upsert, whose exception is caught
and only printed. -/

/-- One enumerated candidate file together with its external outcomes. -/
structure ScanFile where
  path : String
  previewExists : Bool
  convert : ConvertResult
  exif : Except String (Option LibRawMeta)
  raw_size_mb : ℚ
  indexed_at : String
  dbWrite : Except String Unit

/-- The three run counters of `scan_raw_files`. -/
structure ScanCounts where
  processed : ℕ
  skipped : ℕ
  failed : ℕ
deriving DecidableEq

/-- Loop state: counters plus the catalog contents. -/
structure ScanState where
  counts : ScanCounts
  catalog : List RawPhotoRecord

/-- One iteration of the `for idx, raw_path in enumerate(raw_files, 1)` loop
(lines 230-280): skip if the preview exists and `not regenerate`; else
convert; on failure count `failed`; on success count `processed`, then (when
`update_db`) parse client info, extract EXIF, and upsert — an upsert error
is caught and leaves state otherwise unchanged. -/
def scanStep (update_db regenerate : Bool) (st : ScanState) (f : ScanFile) :
    ScanState :=
  if !regenerate && f.previewExists then
    { st with counts := { st.counts with skipped := st.counts.skipped + 1 } }
  else
    match f.convert with
    | .failure _ =>
      { st with counts := { st.counts with failed := st.counts.failed + 1 } }
    | .success size =>
      let st1 := { st with counts := { st.counts with processed := st.counts.processed + 1 } }
      if update_db then
        match f.dbWrite with
        | .error _ => st1
        | .ok _ =>
          let cd := parse_client_info f.path
          let metadata := extract_exif_from_raw f.exif
          let rec0 := mkScanRecord f.path (get_preview_path f.path) cd.1 cd.2
            metadata f.raw_size_mb ((size : ℚ) / 1024) f.indexed_at
          { st1 with catalog := insert_or_replace st1.catalog rec0 }
      else st1

/-- The whole per-file loop of `scan_raw_files`, folded over the enumerated
candidates from an initial state. -/
def scanLoop (update_db regenerate : Bool) (init : ScanState)
    (files : List ScanFile) : ScanState :=
  files.foldl (scanStep update_db regenerate) init

/-! ## Unified search (`photo-search-all.py`, `search_all_photos`, lines 14-76)

Each catalog is a list of rows; a missing database file (or a connection
error, which the source catches and merely warns about) contributes
nothing. Filters: client and camera are SQLite `LIKE '%x%'` tests (ASCII
case-insensitive substring; NULL never matches), date is exact equality,
`--location` requires both GPS columns non-NULL; a falsy argument (absent
or empty string) disables its filter. Each query orders by date descending
(SQLite puts NULLs last in DESC), truncates to `limit`, and tags its rows;
the two result lists are concatenated JPG-first. -/

/-- One row of the external JPG catalog, with the columns the query touches. -/
structure JpgRow where
  filepath : String
  client_name : Option String
  date : Option String
  camera_model : Option String
  gps_latitude : Option ℚ
  gps_longitude : Option ℚ
deriving DecidableEq

/-- One selected result row: path-like column, three metadata columns, and
the constant source tag (`'JPG' as type` / `'RAW' as type`). -/
structure ResultRow where
  path : String
  client_name : Option String
  date : Option String
  camera_model : Option String
  tag : String
deriving DecidableEq

/-- The filter arguments of `search_all_photos`. -/
structure SearchArgs where
  client : Option String
  date : Option String
  camera : Option String
  location : Bool
deriving DecidableEq

/-- Python truthiness of an optional string argument (`if client:`). -/
def pyTruthy (o : Option String) : Bool :=
  match o with
  | none => false
  | some s => !(s == "")

/-- ASCII lowercasing, the case folding SQLite `LIKE` applies. -/
def lowerAscii (cs : List Char) : List Char := cs.map Char.toLower

/-- Does `needle` occur at the head of the second list? -/
def startsWithCh : List Char → List Char → Bool
  | [], _ => true
  | _ :: _, [] => false
  | a :: as, b :: bs => a == b && startsWithCh as bs

/-- Does `needle` occur anywhere in the list? -/
def containsCh (needle : List Char) : List Char → Bool
  | [] => needle.isEmpty
  | c :: rest => startsWithCh needle (c :: rest) || containsCh needle rest

/-- SQLite `value LIKE '%pat%'` on a non-NULL text value. -/
def sqlLikeContains (pat v : String) : Bool :=
  containsCh (lowerAscii pat.data) (lowerAscii v.data)

/-- The WHERE clause built from the arguments, evaluated on one row's
nullable columns. -/
def rowMatches (args : SearchArgs) (client_name date camera_model : Option String)
    (lat lon : Option ℚ) : Bool :=
  (if pyTruthy args.client then
    match client_name, args.client with
    | some v, some c => sqlLikeContains c v
    | _, _ => false
   else true)
  && (if pyTruthy args.date then date == args.date else true)
  && (if pyTruthy args.camera then
    match camera_model, args.camera with
    | some v, some c => sqlLikeContains c v
    | _, _ => false
   else true)
  && (if args.location then lat.isSome && lon.isSome else true)

/-- `ORDER BY date DESC` comparator: may `a` be placed no later than `b`?
SQLite sorts NULLs last in descending order; non-NULL text compares
bytewise. -/
def dateDescLe (a b : Option String) : Bool :=
  match a, b with
  | none, none => true
  | none, some _ => false
  | some _, none => true
  | some x, some y => !decide (x < y)

/-- Insertion step of the sort used to model `ORDER BY`. -/
def insertSorted {α : Type} (le : α → α → Bool) (x : α) : List α → List α
  | [] => [x]
  | y :: ys => if le x y then x :: y :: ys else y :: insertSorted le x ys

/-- Insertion sort by a boolean comparator, modelling `ORDER BY`. -/
def sortByRel {α : Type} (le : α → α → Bool) : List α → List α
  | [] => []
  | x :: xs => insertSorted le x (sortByRel le xs)

/-- The JPG-catalog query of `search_all_photos` (lines 24-42): filter,
order by date descending, truncate to `limit`, tag each row `"JPG"`. -/
def searchJpg (tbl : List JpgRow) (args : SearchArgs) (limit : ℕ) :
    List ResultRow :=
  let rows := tbl.filter (fun r =>
    rowMatches args r.client_name r.date r.camera_model r.gps_latitude r.gps_longitude)
  ((sortByRel (fun a b => dateDescLe a.date b.date) rows).take limit).map
    (fun r => ⟨r.filepath, r.client_name, r.date, r.camera_model, "JPG"⟩)

/-- The RAW-catalog query (lines 53-71): the same filters plus
`WHERE preview_path IS NOT NULL`; selects `preview_path`, tags `"RAW"`. -/
def searchRaw (tbl : List RawPhotoRecord) (args : SearchArgs) (limit : ℕ) :
    List ResultRow :=
  let rows := tbl.filter (fun r => r.preview_path.isSome &&
    rowMatches args r.client_name r.date r.camera_model r.gps_latitude r.gps_longitude)
  ((sortByRel (fun a b => dateDescLe a.date b.date) rows).take limit).map
    (fun r => ⟨r.preview_path.getD "", r.client_name, r.date, r.camera_model, "RAW"⟩)

/-- `search_all_photos` (`photo-search-all.py` lines 14-76): query each
catalog that exists and extend the shared result list, JPG first. -/
def search_all_photos (jpgDb : Option (List JpgRow))
    (rawDb : Option (List RawPhotoRecord)) (args : SearchArgs) (limit : ℕ) :
    List ResultRow :=
  (match jpgDb with | none => [] | some t => searchJpg t args limit)
    ++ (match rawDb with | none => [] | some t => searchRaw t args limit)

/-! # Theorems -/

/-- C1: upserting a row for filepath `F` and then a second row for the same
`F` leaves exactly one catalog row keyed by `F`, namely the second row
whole — every field (including fields the second row leaves `none` where
the first had a value) comes from the second row; nothing of the first
survives. -/
theorem upsert_overwrite (t : List RawPhotoRecord) (A B : RawPhotoRecord)
    (F : String) (hA : A.filepath = F) (hB : B.filepath = F) :
    (insert_or_replace (insert_or_replace t A) B).filter
      (fun r => r.filepath == F) = [B] := by
  subst hB
  simp only [insert_or_replace, List.filter_append, List.filter_filter]
  simp
  intro a _ h1 h2
  exact absurd h1 h2

/-- Witness for C1 at a concrete table: metadata A has every nullable field
set, metadata B nulls them all; after the two upserts the only row keyed by
`"f.cr2"` is exactly B. -/
theorem upsert_overwrite_witness :
    (insert_or_replace (insert_or_replace []
        ⟨"f.cr2", some "p.jpg", some "Smith", some "2024-05-01", some "Canon",
         some "R5", some "RF50", some 100, some "f/2.8", some "1/250",
         some "50mm", some 1714550000, some 1, some 2, some 10, some 100,
         some "t1"⟩)
        ⟨"f.cr2", none, none, none, none, none, none, none, none, none, none,
         none, none, none, none, none, none⟩).filter
      (fun r => r.filepath == "f.cr2")
    = [⟨"f.cr2", none, none, none, none, none, none, none, none, none, none,
        none, none, none, none, none, none⟩] :=
  upsert_overwrite _ _ _ "f.cr2" rfl rfl


/-- Structure of one `retryLoop` run starting at `attempt` with
`fuel = max_retries - attempt` iterations left: at least one and at most
`fuel` attempts are made; the sleeps are exactly `delay * (index + 1)` for
each non-final failed attempt, in order; every attempt before the last was
locked; and the run either succeeds (last attempt unlocked) or exhausts the
fuel and re-raises with every attempt locked. -/
theorem retryLoop_spec (locked : ℕ → Bool) (m : ℕ) (delay : ℚ) :
    ∀ fuel attempt, attempt + fuel = m → 0 < fuel →
      1 ≤ (retryLoop locked m delay attempt fuel).attemptsMade
      ∧ (retryLoop locked m delay attempt fuel).attemptsMade ≤ fuel
      ∧ (retryLoop locked m delay attempt fuel).sleeps
          = (List.range ((retryLoop locked m delay attempt fuel).attemptsMade - 1)).map
              (fun i : ℕ => delay * ((attempt : ℚ) + (i : ℚ) + 1))
      ∧ (∀ j, j < (retryLoop locked m delay attempt fuel).attemptsMade - 1 →
          locked (attempt + j) = true)
      ∧ (((retryLoop locked m delay attempt fuel).outcome = .success
            ∧ locked (attempt + (retryLoop locked m delay attempt fuel).attemptsMade - 1) = false)
         ∨ ((retryLoop locked m delay attempt fuel).outcome = .raised
            ∧ (retryLoop locked m delay attempt fuel).attemptsMade = fuel
            ∧ ∀ j, j < fuel → locked (attempt + j) = true)) := by
  intro fuel
  induction fuel with
  | zero => intro attempt _ h0; exact absurd h0 (lt_irrefl 0)
  | succ n ih =>
    intro attempt hm _
    by_cases hl : locked attempt
    · by_cases ha : attempt < m - 1
      · have hn : 0 < n := by omega
        obtain ⟨i1, i2, i3, i4, i5⟩ := ih (attempt + 1) (by omega) hn
        set t := retryLoop locked m delay (attempt + 1) n with ht
        have hstep : retryLoop locked m delay attempt (n + 1)
            = ⟨t.attemptsMade + 1,
               delay * ((attempt : ℚ) + 1) :: t.sleeps, t.outcome⟩ := by
          rw [retryLoop]
          simp [hl, ha, ht]
        rw [hstep]
        refine ⟨?_, ?_, ?_, ?_, ?_⟩
        · show 1 ≤ t.attemptsMade + 1
          omega
        · show t.attemptsMade + 1 ≤ n + 1
          omega
        · show delay * ((attempt : ℚ) + 1) :: t.sleeps
            = (List.range (t.attemptsMade + 1 - 1)).map
                (fun i : ℕ => delay * ((attempt : ℚ) + (i : ℚ) + 1))
          obtain ⟨k, hk⟩ : ∃ k, t.attemptsMade = k + 1 := ⟨t.attemptsMade - 1, by omega⟩
          rw [Nat.add_sub_cancel, hk, List.range_succ_eq_map, List.map_cons, List.map_map]
          refine congrArg₂ List.cons ?_ ?_
          · push_cast
            ring
          · rw [i3, hk, Nat.add_sub_cancel]
            refine List.map_congr_left ?_
            intro i _
            simp only [Function.comp_apply, Nat.succ_eq_add_one]
            push_cast
            ring
        · show ∀ j, j < t.attemptsMade + 1 - 1 → locked (attempt + j) = true
          intro j hj
          cases j with
          | zero => simpa using hl
          | succ j' =>
            rw [show attempt + (j' + 1) = attempt + 1 + j' from by omega]
            exact i4 j' (by omega)
        · show (t.outcome = .success ∧ locked (attempt + (t.attemptsMade + 1) - 1) = false)
            ∨ (t.outcome = .raised ∧ t.attemptsMade + 1 = n + 1
               ∧ ∀ j, j < n + 1 → locked (attempt + j) = true)
          rcases i5 with ⟨hs, hlast⟩ | ⟨hr, hfull, hall⟩
          · left
            refine ⟨hs, ?_⟩
            rw [show attempt + (t.attemptsMade + 1) - 1 = attempt + 1 + t.attemptsMade - 1
              from by omega]
            exact hlast
          · right
            refine ⟨hr, by omega, ?_⟩
            intro j hj
            cases j with
            | zero => simpa using hl
            | succ j' =>
              rw [show attempt + (j' + 1) = attempt + 1 + j' from by omega]
              exact hall j' (by omega)
      · have hn0 : n = 0 := by omega
        have hstep : retryLoop locked m delay attempt (n + 1)
            = ⟨1, [], .raised⟩ := by
          rw [retryLoop]
          simp [hl, ha]
        rw [hstep]
        refine ⟨?_, ?_, ?_, ?_, ?_⟩
        · show (1:ℕ) ≤ 1
          exact le_refl 1
        · show (1:ℕ) ≤ n + 1
          omega
        · show ([] : List ℚ) = (List.range (1 - 1)).map
            (fun i : ℕ => delay * ((attempt : ℚ) + (i : ℚ) + 1))
          simp
        · show ∀ j, j < 1 - 1 → locked (attempt + j) = true
          intro j hj
          exact absurd hj (by omega)
        · show (RetryOutcome.raised = .success ∧ locked (attempt + 1 - 1) = false)
            ∨ (RetryOutcome.raised = .raised ∧ (1:ℕ) = n + 1
               ∧ ∀ j, j < n + 1 → locked (attempt + j) = true)
          right
          refine ⟨rfl, by omega, ?_⟩
          intro j hj
          have hj0 : j = 0 := by omega
          subst hj0
          simpa using hl
    · have hstep : retryLoop locked m delay attempt (n + 1)
          = ⟨1, [], .success⟩ := by
        rw [retryLoop]
        simp [hl]
      rw [hstep]
      refine ⟨?_, ?_, ?_, ?_, ?_⟩
      · show (1:ℕ) ≤ 1
        exact le_refl 1
      · show (1:ℕ) ≤ n + 1
        omega
      · show ([] : List ℚ) = (List.range (1 - 1)).map
          (fun i : ℕ => delay * ((attempt : ℚ) + (i : ℚ) + 1))
        simp
      · show ∀ j, j < 1 - 1 → locked (attempt + j) = true
        intro j hj
        exact absurd hj (by omega)
      · show (RetryOutcome.success = .success ∧ locked (attempt + 1 - 1) = false)
          ∨ (RetryOutcome.success = .raised ∧ (1:ℕ) = n + 1
             ∧ ∀ j, j < n + 1 → locked (attempt + j) = true)
        left
        refine ⟨rfl, ?_⟩
        rw [Nat.add_sub_cancel]
        simpa using hl

/-- C2: with `max_retries = 5`, the retrying execute makes at most 5
attempts; if the lock clears on (1-based) attempt `k ≤ 5` — all earlier
attempts locked, attempt `k` unlocked — the call succeeds on attempt `k`;
if the lock never clears, exactly 5 attempts are made and the error is
re-raised; the sleeps are `delay * k` before (1-based) retry `k`, and their
count is `attempts - 1`, so no sleep follows the final attempt. -/
theorem db_execute_with_retry_spec (locked : ℕ → Bool) (delay : ℚ) :
    (db_execute_with_retry locked 5 delay).attemptsMade ≤ 5
    ∧ (∀ k, 1 ≤ k → k ≤ 5 → (∀ j, j < k - 1 → locked j = true) →
        locked (k - 1) = false →
        (db_execute_with_retry locked 5 delay).outcome = .success
        ∧ (db_execute_with_retry locked 5 delay).attemptsMade = k)
    ∧ ((∀ j, locked j = true) →
        (db_execute_with_retry locked 5 delay).attemptsMade = 5
        ∧ (db_execute_with_retry locked 5 delay).outcome = .raised)
    ∧ (db_execute_with_retry locked 5 delay).sleeps
        = (List.range ((db_execute_with_retry locked 5 delay).attemptsMade - 1)).map
            (fun i : ℕ => delay * ((i : ℚ) + 1))
    ∧ (db_execute_with_retry locked 5 delay).sleeps.length
        = (db_execute_with_retry locked 5 delay).attemptsMade - 1 := by
  obtain ⟨i1, i2, i3, i4, i5⟩ := retryLoop_spec locked 5 delay 5 0 rfl (by omega)
  have hsl : (db_execute_with_retry locked 5 delay).sleeps
      = (List.range ((db_execute_with_retry locked 5 delay).attemptsMade - 1)).map
          (fun i : ℕ => delay * ((i : ℚ) + 1)) := by
    show (retryLoop locked 5 delay 0 5).sleeps
      = (List.range ((retryLoop locked 5 delay 0 5).attemptsMade - 1)).map
          (fun i : ℕ => delay * ((i : ℚ) + 1))
    rw [i3]
    refine List.map_congr_left ?_
    intro i _
    push_cast
    ring
  refine ⟨i2, ?_, ?_, hsl, ?_⟩
  · intro k hk1 hk5 hbefore hklast
    rcases i5 with ⟨hs, hlast⟩ | ⟨_, _, hall⟩
    · have hlast' : locked ((retryLoop locked 5 delay 0 5).attemptsMade - 1) = false := by
        rw [show (retryLoop locked 5 delay 0 5).attemptsMade - 1
          = 0 + (retryLoop locked 5 delay 0 5).attemptsMade - 1 from by omega]
        exact hlast
      rcases lt_trichotomy (retryLoop locked 5 delay 0 5).attemptsMade k with h | h | h
      · exfalso
        have := hbefore ((retryLoop locked 5 delay 0 5).attemptsMade - 1) (by omega)
        rw [this] at hlast'
        exact Bool.noConfusion hlast' 
      · exact ⟨hs, h⟩
      · exfalso
        have h4 := i4 (k - 1) (by omega)
        rw [show 0 + (k - 1) = k - 1 from by omega] at h4
        rw [h4] at hklast
        exact Bool.noConfusion hklast
    · exfalso
      have h5 := hall (k - 1) (by omega)
      rw [show 0 + (k - 1) = k - 1 from by omega] at h5
      rw [h5] at hklast
      exact Bool.noConfusion hklast
  · intro hall
    rcases i5 with ⟨_, hlast⟩ | ⟨hr, hfull, _⟩
    · exfalso
      rw [hall (0 + (retryLoop locked 5 delay 0 5).attemptsMade - 1)] at hlast
      exact Bool.noConfusion hlast
    · exact ⟨hfull, hr⟩
  · rw [hsl]
    simp

/-- Witness for C2: a lock that clears after 2 failed attempts succeeds on
the 3rd attempt. -/
theorem db_execute_with_retry_spec_witness :
    (db_execute_with_retry (fun i => decide (i < 2)) 5 (1/2)).outcome = .success
    ∧ (db_execute_with_retry (fun i => decide (i < 2)) 5 (1/2)).attemptsMade = 3 :=
  (db_execute_with_retry_spec (fun i => decide (i < 2)) (1/2)).2.1 3 (by omega)
    (by omega) (fun j hj => decide_eq_true (by omega)) (by decide)

/-- C4 counterexample: for the sub-second duration d = 3/5 s the code
formats `"1/1"` — `int(1/d)` truncates 5/3 to 1 — whereas the claimed
rounding of the reciprocal to the nearest integer gives 2. -/
theorem format_shutter_speed_not_round :
    ¬ (format_shutter_speed (3/5) = "1/" ++ toString (round ((1:ℚ) / (3/5)))) := by
  have h1 : format_shutter_speed (3/5) = "1/1" := by
    norm_num [format_shutter_speed, pyTrunc]
    rfl
  have h2 : round ((1:ℚ) / (3/5)) = 2 := by
    norm_num [round_eq]
  rw [h1, h2]
  decide

/-- C4 (amended): for d ≥ 1 the formatted string is the duration (to one
decimal) followed by `"s"`; for a sub-second duration 0 < d < 1 it is
`"1/Y"` where `Y = int(1/d)` is the reciprocal truncated toward zero
(equivalently, floored, since 1/d > 0) — not rounded to nearest. -/
theorem format_shutter_speed_spec (d : ℚ) (hd : 0 < d) :
    (1 ≤ d → format_shutter_speed d = oneDecimalStr d ++ "s")
    ∧ (d < 1 → format_shutter_speed d = "1/" ++ toString ⌊1 / d⌋) := by
  constructor
  · intro h
    simp [format_shutter_speed, h]
  · intro h
    have h1 : ¬ (1 ≤ d) := not_le.mpr h
    have h2 : (0:ℚ) ≤ 1 / d := by positivity
    simp [format_shutter_speed, h1, pyTrunc, h2, hd.le]

/-- Witness for C4's amended theorem at d = 1/2 s: the output is `"1/2"`,
the floor of the reciprocal 2. -/
theorem format_shutter_speed_spec_witness :
    format_shutter_speed (1/2) = "1/2" := by
  have h := (format_shutter_speed_spec (1/2) (by norm_num)).2 (by norm_num)
  rw [h]
  norm_num
  rfl

/-- C7: the RAW-to-preview conversion never lets an exception escape: for
every environment it returns either success with the written byte size or
failure with the reason string — each pipeline error becomes a reported
failure outcome, and each pipeline success a reported success. -/
theorem convert_raw_to_preview_total {RGB Img : Type} (env : ConvertEnv RGB Img)
    (max_size quality : ℕ) :
    (∃ n, convert_raw_to_preview env max_size quality = .success n
        ∧ convertPipeline env max_size quality = .ok n)
    ∨ (∃ e, convert_raw_to_preview env max_size quality = .failure e
        ∧ convertPipeline env max_size quality = .error e) := by
  unfold convert_raw_to_preview
  cases h : convertPipeline env max_size quality with
  | ok n => exact Or.inl ⟨n, rfl, rfl⟩
  | error e => exact Or.inr ⟨e, rfl, rfl⟩

/-- C8 counterexample: the `postprocess` call does not disable
auto-brightening — it passes `no_auto_bright=False`. -/
theorem convert_postprocess_auto_bright_on :
    ¬ (convertPostprocessArgs.no_auto_bright = true) := by decide

/-- C8 (amended): every conversion invokes the decoder's postprocessing
with exactly the argument record half-size (fast reduced resolution),
camera white balance, `no_auto_bright = false` (auto-brightness ENABLED,
not disabled), and 8-bit output: the conversion result depends on the
decode oracle only through its value at that record, and the record is
`⟨true, true, false, 8⟩`. -/
theorem convert_postprocess_args_spec {RGB Img : Type}
    (f g : PostprocessArgs → Except String RGB)
    (fa : RGB → Except String Img) (th : Img → ℕ → Except String Img)
    (mk : Except String Unit) (sv : Img → ℕ → Except String Unit)
    (gs : Except String ℕ) (max_size quality : ℕ)
    (h : f convertPostprocessArgs = g convertPostprocessArgs) :
    convert_raw_to_preview ⟨f, fa, th, mk, sv, gs⟩ max_size quality
      = convert_raw_to_preview ⟨g, fa, th, mk, sv, gs⟩ max_size quality
    ∧ convertPostprocessArgs = ⟨true, true, false, 8⟩ := by
  constructor
  · simp only [convert_raw_to_preview, convertPipeline, h]
  · rfl

/-- Witness for C8's amended theorem with two decode oracles that agree at
the passed argument record. -/
theorem convert_postprocess_args_spec_witness :
    @convert_raw_to_preview ℕ ℕ
      ⟨fun a => if a.output_bps = 8 then Except.error "decode" else Except.ok 0,
       fun r => Except.ok r, fun i _ => Except.ok i, Except.ok (),
       fun _ _ => Except.ok (), Except.ok 7⟩ 1080 85
    = @convert_raw_to_preview ℕ ℕ
      ⟨fun _ => Except.error "decode",
       fun r => Except.ok r, fun i _ => Except.ok i, Except.ok (),
       fun _ _ => Except.ok (), Except.ok 7⟩ 1080 85 :=
  (convert_postprocess_args_spec
    (fun a => if a.output_bps = 8 then Except.error "decode" else Except.ok 0)
    (fun _ => Except.error "decode")
    (fun r => Except.ok r) (fun i _ => Except.ok i) (Except.ok ())
    (fun _ _ => Except.ok ()) (Except.ok 7) 1080 85 rfl).1

/-- C9: whatever the rawpy oracle returns, the extracted metadata leaves
`lens_model`, `gps_latitude` and `gps_longitude` at `None`; hence every
record the scan pipeline upserts has those three fields NULL, and the
GPS-presence filter (`--location`, requiring both GPS columns non-NULL)
evaluates to false on such a record for every choice of the other filter
arguments. -/
theorem scan_metadata_gps_null (raw : Except String (Option LibRawMeta))
    (raw_path preview_path : String) (client_name date0 : Option String)
    (sz kb : ℚ) (ts : String) (c d cam : Option String) :
    (extract_exif_from_raw raw).lens_model = none
    ∧ (extract_exif_from_raw raw).gps_latitude = none
    ∧ (extract_exif_from_raw raw).gps_longitude = none
    ∧ (mkScanRecord raw_path preview_path client_name date0
        (extract_exif_from_raw raw) sz kb ts).lens_model = none
    ∧ (mkScanRecord raw_path preview_path client_name date0
        (extract_exif_from_raw raw) sz kb ts).gps_latitude = none
    ∧ (mkScanRecord raw_path preview_path client_name date0
        (extract_exif_from_raw raw) sz kb ts).gps_longitude = none
    ∧ rowMatches ⟨c, d, cam, true⟩
        (mkScanRecord raw_path preview_path client_name date0
          (extract_exif_from_raw raw) sz kb ts).client_name
        (mkScanRecord raw_path preview_path client_name date0
          (extract_exif_from_raw raw) sz kb ts).date
        (mkScanRecord raw_path preview_path client_name date0
          (extract_exif_from_raw raw) sz kb ts).camera_model
        (mkScanRecord raw_path preview_path client_name date0
          (extract_exif_from_raw raw) sz kb ts).gps_latitude
        (mkScanRecord raw_path preview_path client_name date0
          (extract_exif_from_raw raw) sz kb ts).gps_longitude = false := by
  have hgps : (extract_exif_from_raw raw).lens_model = none
      ∧ (extract_exif_from_raw raw).gps_latitude = none
      ∧ (extract_exif_from_raw raw).gps_longitude = none := by
    rcases raw with e | md
    · exact ⟨rfl, rfl, rfl⟩
    · rcases md with _ | m
      · exact ⟨rfl, rfl, rfl⟩
      · exact ⟨rfl, rfl, rfl⟩
  obtain ⟨h1, h2, h3⟩ := hgps
  refine ⟨h1, h2, h3, h1, h2, h3, ?_⟩
  simp only [mkScanRecord]
  simp [rowMatches, h2, h3]

/-- Each scan-loop step increments exactly one of the three counters. -/
theorem scanStep_counts (u r : Bool) (st : ScanState) (f : ScanFile) :
    (scanStep u r st f).counts
        = ⟨st.counts.processed + 1, st.counts.skipped, st.counts.failed⟩
    ∨ (scanStep u r st f).counts
        = ⟨st.counts.processed, st.counts.skipped + 1, st.counts.failed⟩
    ∨ (scanStep u r st f).counts
        = ⟨st.counts.processed, st.counts.skipped, st.counts.failed + 1⟩ := by
  unfold scanStep
  by_cases h1 : (!r && f.previewExists) = true
  · rw [if_pos h1]
    exact Or.inr (Or.inl rfl)
  · rw [if_neg h1]
    cases hc : f.convert with
    | failure e => exact Or.inr (Or.inr rfl)
    | success n =>
      cases u with
      | false => exact Or.inl rfl
      | true =>
        cases hw : f.dbWrite with
        | error e => exact Or.inl rfl
        | ok _ => exact Or.inl rfl

/-- C10: after a scan run the three counters partition the candidates —
their sum grows by exactly the number of files folded — and a file whose
conversion succeeded but whose catalog write errored is counted as
processed, never as failed. -/
theorem scan_counts_spec (u r : Bool) (init : ScanState) (files : List ScanFile) :
    ((scanLoop u r init files).counts.processed
      + (scanLoop u r init files).counts.skipped
      + (scanLoop u r init files).counts.failed
      = init.counts.processed + init.counts.skipped + init.counts.failed
        + files.length)
    ∧ (∀ st f, (scanStep u r st f).counts
          = ⟨st.counts.processed + 1, st.counts.skipped, st.counts.failed⟩
        ∨ (scanStep u r st f).counts
          = ⟨st.counts.processed, st.counts.skipped + 1, st.counts.failed⟩
        ∨ (scanStep u r st f).counts
          = ⟨st.counts.processed, st.counts.skipped, st.counts.failed + 1⟩)
    ∧ (∀ st f n e, f.convert = .success n → f.dbWrite = .error e →
        (!r && f.previewExists) = false →
        (scanStep u r st f).counts
          = ⟨st.counts.processed + 1, st.counts.skipped, st.counts.failed⟩) := by
  refine ⟨?_, scanStep_counts u r, ?_⟩
  · induction files generalizing init with
    | nil => simp [scanLoop]
    | cons f fs ih =>
      have h2 : scanLoop u r init (f :: fs) = scanLoop u r (scanStep u r init f) fs := rfl
      rw [h2, ih (scanStep u r init f)]
      rcases scanStep_counts u r init f with h | h | h <;> rw [h] <;>
        simp [List.length_cons] <;> omega
  · intro st f n e hc hw hpre
    have h1 : ¬ ((!r && f.previewExists) = true) := by simp [hpre]
    unfold scanStep
    rw [if_neg h1, hc, hw]
    cases u with
    | false => rfl
    | true => rfl

/-- Witness for C10: a file with no existing preview, a successful
conversion, and a catalog write that fails with a lock error is counted in
`processed` (not `failed`). -/
theorem scan_counts_spec_witness :
    (scanStep true false ⟨⟨0, 0, 0⟩, []⟩
        ⟨"a/x.cr2", false, ConvertResult.success 100, Except.error "exif", 1,
         "2024", Except.error "database is locked"⟩).counts = ⟨1, 0, 0⟩ :=
  (scan_counts_spec true false ⟨⟨0, 0, 0⟩, []⟩ []).2.2 ⟨⟨0, 0, 0⟩, []⟩
    ⟨"a/x.cr2", false, ConvertResult.success 100, Except.error "exif", 1,
     "2024", Except.error "database is locked"⟩ 100 "database is locked"
    rfl rfl rfl

/-- C3: the path parser is total (a Lean function) and returns a possibly
both-null pair; the three literal cases of the spec hold, and whenever the
date-plus-trailing-name pattern matches anywhere in the path its result is
used — the bare-date pattern is never consulted (precedence). -/
theorem parse_client_info_spec :
    parse_client_info ".../2024-05-01 Smith Wedding/IMG_01.CR2"
        = (some "Smith Wedding", some "2024-05-01")
    ∧ parse_client_info ".../2024-05-01/IMG_02.NEF" = (none, some "2024-05-01")
    ∧ parse_client_info "/misc/IMG_03.DNG" = (none, none)
    ∧ (∀ s d g, searchPat1 s.data = some (d, g) →
        parse_client_info s = (some (String.mk (pyStrip g)), some (String.mk d))) := by
  refine ⟨by decide, by decide, by decide, ?_⟩
  intro s d g h
  simp only [parse_client_info, h]

/-- Witness for C3's precedence conjunct at a concrete path on which
pattern 1 matches. -/
theorem parse_client_info_spec_witness :
    parse_client_info "2024-05-01 A/b" = (some "A", some "2024-05-01") := by
  have h := parse_client_info_spec.2.2.2 "2024-05-01 A/b"
    "2024-05-01".data "A".data (by decide)
  rw [h]
  decide

/-- C5 counterexample: with `limit = 1` and one matching row in each
catalog, the dual-catalog search returns 2 rows — more than `limit` rows
in total, because each catalog is truncated separately. -/
theorem search_all_photos_over_limit :
    ¬ ((search_all_photos
        (some [⟨"a.jpg", none, some "2024-01-02", none, none, none⟩])
        (some [⟨"r.cr2", some "b.jpg", none, some "2024-01-01", none, none,
          none, none, none, none, none, none, none, none, none, none, none⟩])
        ⟨none, none, none, false⟩ 1).length ≤ 1) := by decide

/-- Each per-catalog JPG query returns at most `limit` rows. -/
theorem searchJpg_len (tbl : List JpgRow) (args : SearchArgs) (limit : ℕ) :
    (searchJpg tbl args limit).length ≤ limit := by
  simp only [searchJpg, List.length_map, List.length_take]
  exact min_le_left _ _

/-- Each per-catalog RAW query returns at most `limit` rows. -/
theorem searchRaw_len (tbl : List RawPhotoRecord) (args : SearchArgs) (limit : ℕ) :
    (searchRaw tbl args limit).length ≤ limit := by
  simp only [searchRaw, List.length_map, List.length_take]
  exact min_le_left _ _

/-- Every row the JPG query returns carries the tag `"JPG"`. -/
theorem searchJpg_tags (tbl : List JpgRow) (args : SearchArgs) (limit : ℕ) :
    ∀ row ∈ searchJpg tbl args limit, row.tag = "JPG" := by
  intro row hrow
  simp only [searchJpg, List.mem_map] at hrow
  obtain ⟨r, _, rfl⟩ := hrow
  rfl

/-- Every row the RAW query returns carries the tag `"RAW"`. -/
theorem searchRaw_tags (tbl : List RawPhotoRecord) (args : SearchArgs) (limit : ℕ) :
    ∀ row ∈ searchRaw tbl args limit, row.tag = "RAW" := by
  intro row hrow
  simp only [searchRaw, List.mem_map] at hrow
  obtain ⟨r, _, rfl⟩ := hrow
  rfl

/-- C5 (amended): the dual-catalog search returns at most `limit` rows per
catalog — hence at most `2 * limit` rows in total, not `limit` — and the
result is the JPG-tagged list followed by the RAW-tagged list, each row
tagged with its originating catalog, concatenated without re-sorting the
union. -/
theorem search_all_photos_spec (jpgDb : Option (List JpgRow))
    (rawDb : Option (List RawPhotoRecord)) (args : SearchArgs) (limit : ℕ) :
    (search_all_photos jpgDb rawDb args limit).length ≤ 2 * limit
    ∧ ∃ xs ys, search_all_photos jpgDb rawDb args limit = xs ++ ys
        ∧ xs.length ≤ limit ∧ ys.length ≤ limit
        ∧ (∀ row ∈ xs, row.tag = "JPG") ∧ (∀ row ∈ ys, row.tag = "RAW") := by
  have hj : (match jpgDb with
      | none => [] | some t => searchJpg t args limit).length ≤ limit := by
    cases jpgDb with
    | none => simp
    | some t => exact searchJpg_len t args limit
  have hr : (match rawDb with
      | none => [] | some t => searchRaw t args limit).length ≤ limit := by
    cases rawDb with
    | none => simp
    | some t => exact searchRaw_len t args limit
  constructor
  · show ((match jpgDb with | none => [] | some t => searchJpg t args limit)
      ++ (match rawDb with | none => [] | some t => searchRaw t args limit)).length
      ≤ 2 * limit
    rw [List.length_append]
    omega
  · refine ⟨_, _, rfl, hj, hr, ?_, ?_⟩
    · intro row hrow
      cases jpgDb with
      | none => exact absurd hrow (List.not_mem_nil row)
      | some t => exact searchJpg_tags t args limit row hrow
    · intro row hrow
      cases rawDb with
      | none => exact absurd hrow (List.not_mem_nil row)
      | some t => exact searchRaw_tags t args limit row hrow

/-- `splitSlash` never returns the empty list of pieces. -/
theorem splitSlash_ne_nil : ∀ cs : List Char, splitSlash cs ≠ [] := by
  intro cs
  cases cs with
  | nil => simp [splitSlash]
  | cons c rest =>
    simp only [splitSlash]
    split
    · simp
    · split
      · simp
      · simp

/-- No piece produced by `splitSlash` contains a slash. -/
theorem splitSlash_no_slash : ∀ cs : List Char, ∀ p ∈ splitSlash cs, '/' ∉ p := by
  intro cs
  induction cs with
  | nil =>
    intro p hp
    simp [splitSlash] at hp
    simp [hp]
  | cons c rest ih =>
    intro p hp
    simp only [splitSlash] at hp
    by_cases hc : c = '/'
    · rw [if_pos hc] at hp
      rcases List.mem_cons.mp hp with h | h
      · simp [h]
      · exact ih p h
    · rw [if_neg hc] at hp
      cases hsp : splitSlash rest with
      | nil => exact absurd hsp (splitSlash_ne_nil rest)
      | cons q qs =>
        simp only [hsp] at hp
        rcases List.mem_cons.mp hp with h | h
        · subst h
          intro hmem
          rcases List.mem_cons.mp hmem with h' | h'
          · exact hc h'.symm
          · exact ih q (by rw [hsp]; exact List.mem_cons_self q qs) h'
        · exact ih p (by rw [hsp]; exact List.mem_cons.mpr (Or.inr h))

/-- Every component of a parsed path is nonempty and slash-free. -/
theorem parsePath_comps_good (s : String) :
    ∀ p ∈ (parsePath s).comps, p ≠ [] ∧ '/' ∉ p := by
  intro p hp
  simp only [parsePath] at hp
  rw [List.mem_filter] at hp
  obtain ⟨h1, h2⟩ := hp
  refine ⟨?_, splitSlash_no_slash s.data p h1⟩
  intro hnil
  subst hnil
  simp at h2

/-- A join headed by a nonempty slash-free block starts with a non-slash
character. -/
theorem joinSlash_head (b : List Char) (bs : List (List Char))
    (hb : b ≠ []) (hsl : '/' ∉ b) :
    ∃ c t, joinSlash (b :: bs) = c :: t ∧ c ≠ '/' := by
  obtain ⟨c, b', rfl⟩ : ∃ c b', b = c :: b' := by
    cases b with
    | nil => exact absurd rfl hb
    | cons c b' => exact ⟨c, b', rfl⟩
  have hc : c ≠ '/' := by
    intro h
    subst h
    exact hsl (List.mem_cons_self _ _)
  cases bs with
  | nil => exact ⟨c, b', rfl, hc⟩
  | cons q qs => exact ⟨c, b' ++ '/' :: joinSlash (q :: qs), rfl, hc⟩

/-- Two slash-free blocks followed by empty-or-slash-headed remainders can
only concatenate equally if both parts agree. -/
theorem blockEq (a : List Char) : ∀ (b r₁ r₂ : List Char), '/' ∉ a → '/' ∉ b →
    (r₁ = [] ∨ ∃ t, r₁ = '/' :: t) → (r₂ = [] ∨ ∃ t, r₂ = '/' :: t) →
    a ++ r₁ = b ++ r₂ → a = b ∧ r₁ = r₂ := by
  induction a with
  | nil =>
    intro b r₁ r₂ _ hb h1 _ h
    cases b with
    | nil => exact ⟨rfl, by simpa using h⟩
    | cons d b' =>
      exfalso
      simp only [List.nil_append, List.cons_append] at h
      rcases h1 with rfl | ⟨t, rfl⟩
      · exact List.noConfusion h
      · obtain ⟨hd, -⟩ := List.cons.inj h
        apply hb
        rw [← hd]
        exact List.mem_cons_self _ _
  | cons c a' ih =>
    intro b r₁ r₂ ha hb h1 h2 h
    cases b with
    | nil =>
      exfalso
      simp only [List.cons_append, List.nil_append] at h
      rcases h2 with rfl | ⟨t, rfl⟩
      · exact List.noConfusion h
      · obtain ⟨hd, -⟩ := List.cons.inj h
        apply ha
        rw [hd]
        exact List.mem_cons_self _ _
    | cons d b' =>
      simp only [List.cons_append] at h
      obtain ⟨hcd, htail⟩ := List.cons.inj h
      have ha' : '/' ∉ a' := fun hm => ha (List.mem_cons_of_mem _ hm)
      have hb' : '/' ∉ b' := fun hm => hb (List.mem_cons_of_mem _ hm)
      obtain ⟨he, hr⟩ := ih b' r₁ r₂ ha' hb' h1 h2 htail
      exact ⟨by rw [hcd, he], hr⟩

/-- `joinSlash` is injective on lists of nonempty slash-free blocks. -/
theorem joinSlash_inj : ∀ (l₁ l₂ : List (List Char)),
    (∀ p ∈ l₁, p ≠ [] ∧ '/' ∉ p) → (∀ p ∈ l₂, p ≠ [] ∧ '/' ∉ p) →
    joinSlash l₁ = joinSlash l₂ → l₁ = l₂ := by
  intro l₁
  induction l₁ with
  | nil =>
    intro l₂ _ hg2 h
    cases l₂ with
    | nil => rfl
    | cons b bs =>
      exfalso
      obtain ⟨hb1, hb2⟩ := hg2 b (List.mem_cons_self b bs)
      obtain ⟨c, t, he, -⟩ := joinSlash_head b bs hb1 hb2
      rw [he] at h
      exact List.noConfusion h
  | cons a as ih =>
    intro l₂ hg1 hg2 h
    cases l₂ with
    | nil =>
      exfalso
      obtain ⟨ha1, ha2⟩ := hg1 a (List.mem_cons_self a as)
      obtain ⟨c, t, he, -⟩ := joinSlash_head a as ha1 ha2
      rw [he] at h
      exact List.noConfusion h
    | cons b bs =>
      obtain ⟨ha1, ha2⟩ := hg1 a (List.mem_cons_self a as)
      obtain ⟨hb1, hb2⟩ := hg2 b (List.mem_cons_self b bs)
      have hra : joinSlash (a :: as) = a ++ joinRest as := by
        cases as with
        | nil => simp [joinSlash, joinRest]
        | cons q qs => rfl
      have hrb : joinSlash (b :: bs) = b ++ joinRest bs := by
        cases bs with
        | nil => simp [joinSlash, joinRest]
        | cons q qs => rfl
      rw [hra, hrb] at h
      have hsh1 : joinRest as = [] ∨ ∃ t, joinRest as = '/' :: t := by
        cases as with
        | nil => exact Or.inl rfl
        | cons q qs => exact Or.inr ⟨joinSlash (q :: qs), rfl⟩
      have hsh2 : joinRest bs = [] ∨ ∃ t, joinRest bs = '/' :: t := by
        cases bs with
        | nil => exact Or.inl rfl
        | cons q qs => exact Or.inr ⟨joinSlash (q :: qs), rfl⟩
      obtain ⟨heq, hrq⟩ := blockEq a b _ _ ha2 hb2 hsh1 hsh2 h
      cases as with
      | nil =>
        cases bs with
        | nil => rw [heq]
        | cons q qs => exact absurd hrq (by simp [joinRest])
      | cons p ps =>
        cases bs with
        | nil => exact absurd hrq (by simp [joinRest])
        | cons q qs =>
          obtain ⟨-, hj⟩ := List.cons.inj (by simpa [joinRest] using hrq : ('/' :: joinSlash (p :: ps)) = '/' :: joinSlash (q :: qs))
          have goodas : ∀ x ∈ p :: ps, x ≠ [] ∧ '/' ∉ x :=
            fun x hx => hg1 x (List.mem_cons_of_mem _ hx)
          have goodbs : ∀ x ∈ q :: qs, x ≠ [] ∧ '/' ∉ x :=
            fun x hx => hg2 x (List.mem_cons_of_mem _ hx)
          rw [heq, ih (q :: qs) goodas goodbs hj]

/-- Membership of the value reported by `getLast?`. -/
theorem getLast_mem_of_eq {α : Type} (l : List α) (a : α)
    (h : l.getLast? = some a) : a ∈ l := by
  cases l with
  | nil => simp at h
  | cons x xs =>
    rw [List.getLast?_eq_getLast _ (by simp)] at h
    rw [← Option.some_inj.mp h]
    exact List.getLast_mem _

/-- The name of a parsed path contains no slash. -/
theorem parsePath_name_good (s : String) : '/' ∉ (parsePath s).name := by
  unfold PurePath.name
  cases hg : (parsePath s).comps.getLast? with
  | none => simp
  | some q =>
    simp only [Option.getD_some]
    exact (parsePath_comps_good s q (getLast_mem_of_eq _ q hg)).2

/-- The stem of a parsed path contains no slash. -/
theorem parsePath_stem_good (s : String) : '/' ∉ (parsePath s).stem := by
  have hname := parsePath_name_good s
  unfold PurePath.stem
  cases hl : lastDotIdx (parsePath s).name with
  | none => exact hname
  | some i =>
    show '/' ∉ (if 0 < i ∧ i < (parsePath s).name.length - 1
      then List.take i (parsePath s).name else (parsePath s).name)
    by_cases hcond : 0 < i ∧ i < (parsePath s).name.length - 1
    · rw [if_pos hcond]
      intro hm
      exact hname (List.take_subset _ _ hm)
    · rw [if_neg hcond]
      exact hname

/-- `pathStr` is injective on children of paths with good components, for a
fixed appended nonempty slash-free name. -/
theorem pathStr_child_inj (p₁ p₂ : PurePath) (n : List Char)
    (h₁ : ∀ q ∈ p₁.comps, q ≠ [] ∧ '/' ∉ q)
    (h₂ : ∀ q ∈ p₂.comps, q ≠ [] ∧ '/' ∉ q)
    (hn : n ≠ [] ∧ '/' ∉ n)
    (h : pathStr (p₁.child n) = pathStr (p₂.child n)) : p₁ = p₂ := by
  have hps : ∀ (p : PurePath), pathStr (p.child n)
      = (if p.absolute then ['/'] else []) ++ joinSlash (p.comps ++ [n]) := by
    intro p
    unfold pathStr PurePath.child
    simp
  rw [hps p₁, hps p₂] at h
  have hgood : ∀ (p : PurePath), (∀ q ∈ p.comps, q ≠ [] ∧ '/' ∉ q) →
      ∀ q ∈ p.comps ++ [n], q ≠ [] ∧ '/' ∉ q := by
    intro p hg q hq
    rcases List.mem_append.mp hq with hm | hm
    · exact hg q hm
    · rw [List.mem_singleton.mp hm]
      exact hn
  have hh : ∀ (p : PurePath), (∀ q ∈ p.comps, q ≠ [] ∧ '/' ∉ q) →
      ∃ c t, joinSlash (p.comps ++ [n]) = c :: t ∧ c ≠ '/' := by
    intro p hg
    cases hc : p.comps with
    | nil => exact joinSlash_head n [] hn.1 hn.2
    | cons q qs =>
      have hq : q ∈ p.comps := by
        rw [hc]
        exact List.mem_cons_self q qs
      exact joinSlash_head q (qs ++ [n]) (hg q hq).1 (hg q hq).2
  by_cases hab : p₁.absolute = p₂.absolute
  · rw [hab] at h
    have hj := List.append_cancel_left h
    have hcomps := joinSlash_inj _ _ (hgood p₁ h₁) (hgood p₂ h₂) hj
    have hc := List.append_cancel_right hcomps
    obtain ⟨a1, c1⟩ := p₁
    obtain ⟨a2, c2⟩ := p₂
    simp only at hab hc
    rw [hab, hc]
  · exfalso
    obtain ⟨c1, t1, he1, hc1⟩ := hh p₁ h₁
    obtain ⟨c2, t2, he2, hc2⟩ := hh p₂ h₂
    rw [he1, he2] at h
    cases ha1 : p₁.absolute <;> cases ha2 : p₂.absolute <;> rw [ha1, ha2] at h
    · exact hab (ha1.trans ha2.symm)
    · simp only [Bool.false_eq_true, if_false, List.nil_append, if_pos,
        List.cons_append, List.singleton_append] at h
      obtain ⟨hx, -⟩ := List.cons.inj h
      exact hc1 hx
    · simp only [Bool.false_eq_true, if_false, List.nil_append, if_pos,
        List.cons_append, List.singleton_append] at h
      obtain ⟨hx, -⟩ := List.cons.inj h
      exact hc2 hx.symm
    · exact hab (ha1.trans ha2.symm)

/-- C6: preview-path derivation is deterministic (equal inputs give equal
outputs), always places `<stem>_preview.jpg` in the source's directory, and
two source paths with the same stem but different parent directories give
two distinct preview paths. -/
theorem get_preview_path_spec :
    (∀ p q : String, p = q → get_preview_path p = get_preview_path q)
    ∧ (∀ p : String, get_preview_path p
        = String.mk (pathStr ((parsePath p).parent.child
            ((parsePath p).stem ++ "_preview.jpg".data))))
    ∧ (∀ p₁ p₂ : String, (parsePath p₁).parent ≠ (parsePath p₂).parent →
        (parsePath p₁).stem = (parsePath p₂).stem →
        get_preview_path p₁ ≠ get_preview_path p₂) := by
  refine ⟨fun p q h => by rw [h], fun p => rfl, ?_⟩
  intro p₁ p₂ hpar hstem heq
  apply hpar
  have heq' : pathStr ((parsePath p₁).parent.child
        ((parsePath p₁).stem ++ "_preview.jpg".data))
      = pathStr ((parsePath p₂).parent.child
        ((parsePath p₂).stem ++ "_preview.jpg".data)) := congrArg String.data heq
  rw [hstem] at heq'
  refine pathStr_child_inj _ _ _ ?_ ?_ ⟨?_, ?_⟩ heq'
  · intro q hq
    have hq' : q ∈ (parsePath p₁).comps.dropLast := hq
    exact parsePath_comps_good p₁ q (List.dropLast_subset _ hq')
  · intro q hq
    have hq' : q ∈ (parsePath p₂).comps.dropLast := hq
    exact parsePath_comps_good p₂ q (List.dropLast_subset _ hq')
  · intro hnil
    exact absurd (List.append_eq_nil.mp hnil).2 (by decide)
  · intro hm
    rcases List.mem_append.mp hm with hm' | hm'
    · exact parsePath_stem_good p₂ hm'
    · revert hm'
      decide

/-- Witness for C6: `"a/x.cr2"` and `"b/x.cr2"` share the stem `x` but live
in different directories, and their preview paths differ. -/
theorem get_preview_path_spec_witness :
    get_preview_path "a/x.cr2" ≠ get_preview_path "b/x.cr2" :=
  get_preview_path_spec.2.2 "a/x.cr2" "b/x.cr2" (by decide) (by decide)

/-- Witness for C5's amended theorem at concrete (empty) catalogs. -/
theorem search_all_photos_spec_witness :
    (search_all_photos (some []) (some []) ⟨none, none, none, false⟩ 3).length ≤ 2 * 3 :=
  (search_all_photos_spec (some []) (some []) ⟨none, none, none, false⟩ 3).1
